import Mathlib

/-!
Verification development for the EarningsRadar aggregation pipeline.

The definitions below are a shallow embedding of the two scraper modules
(earnings calendar aggregation in EarningsScraper, news aggregation in
NewsScraper) and of the utility helpers they mention.  Machine-level
concerns that the Python code delegates to libraries are modelled at the
interface level: a pandas drop_duplicates with keep equal to first becomes
an explicit first-occurrence deduplication, sort_values becomes a sorting
function, and the C strptime routine is passed in as a function parameter
so that theorems can quantify over its behaviour.  Calendar dates are
modelled as integers counting days, timestamps as integers counting
seconds.  Python exceptions raised by an adapter are modelled by Except
values consumed by the aggregators, mirroring the try/except blocks that
surround each adapter invocation.
-/

namespace EarningsRadar

/-! ### First-occurrence deduplication (pandas drop_duplicates, keep first) -/

/-- Worker for first-occurrence deduplication: keeps an element only when its
key has not been seen before, scanning left to right. -/
def dedupAux {α κ : Type} [DecidableEq κ] (key : α → κ) : List κ → List α → List α
  | _, [] => []
  | seen, a :: as =>
    if key a ∈ seen then dedupAux key seen as
    else a :: dedupAux key (key a :: seen) as

/-- Model of DataFrame.drop_duplicates with subset equal to the given key and
keep equal to first: the first row with each key value survives. -/
def drop_duplicates {α κ : Type} [DecidableEq κ] (key : α → κ) (l : List α) : List α :=
  dedupAux key [] l

theorem dedupAux_sublist {α κ : Type} [DecidableEq κ] (key : α → κ) (seen : List κ)
    (l : List α) : List.Sublist (dedupAux key seen l) l := by
  induction l generalizing seen with
  | nil => simp [dedupAux]
  | cons a as ih =>
    simp only [dedupAux]
    split
    · exact (ih seen).trans (List.sublist_cons_self a as)
    · exact (ih _).cons₂ a

theorem mem_of_mem_dedupAux {α κ : Type} [DecidableEq κ] {key : α → κ} {seen : List κ}
    {l : List α} {a : α} (h : a ∈ dedupAux key seen l) : a ∈ l :=
  (dedupAux_sublist key seen l).subset h

theorem dedupAux_key_not_seen {α κ : Type} [DecidableEq κ] {key : α → κ} {seen : List κ}
    {l : List α} {a : α} (h : a ∈ dedupAux key seen l) : key a ∉ seen := by
  induction l generalizing seen with
  | nil => simp [dedupAux] at h
  | cons b bs ih =>
    simp only [dedupAux] at h
    split at h
    · exact ih h
    · rename_i hb
      rcases List.mem_cons.mp h with rfl | h2
      · exact hb
      · intro hin
        exact ih h2 (List.mem_cons_of_mem _ hin)

theorem dedupAux_keys_nodup {α κ : Type} [DecidableEq κ] (key : α → κ) (seen : List κ)
    (l : List α) : ((dedupAux key seen l).map key).Nodup := by
  induction l generalizing seen with
  | nil => simp [dedupAux]
  | cons b bs ih =>
    simp only [dedupAux]
    split
    · exact ih seen
    · simp only [List.map_cons, List.nodup_cons]
      refine ⟨?_, ih _⟩
      intro hmem
      rcases List.mem_map.mp hmem with ⟨c, hc, hkc⟩
      exact dedupAux_key_not_seen hc (by simp [hkc])

theorem dedupAux_find? {α κ : Type} [DecidableEq κ] {key : α → κ} {seen : List κ}
    {l : List α} {a : α} (h : a ∈ dedupAux key seen l) :
    l.find? (fun b => decide (key b = key a)) = some a := by
  induction l generalizing seen with
  | nil => simp [dedupAux] at h
  | cons b bs ih =>
    simp only [dedupAux] at h
    split at h
    · rename_i hb
      have hne : ¬ ((fun c => decide (key c = key a)) b) = true := by
        simp only [decide_eq_true_eq]
        intro he
        exact dedupAux_key_not_seen h (he ▸ hb)
      rw [List.find?_cons_of_neg (p := fun c => decide (key c = key a)) _ hne]
      exact ih h
    · rename_i hb
      rcases List.mem_cons.mp h with rfl | h2
      · rw [List.find?_cons_of_pos (p := fun c => decide (key c = key a)) _ (by simp)]
      · have hkey : key a ∉ key b :: seen := dedupAux_key_not_seen h2
        have hne : ¬ ((fun c => decide (key c = key a)) b) = true := by
          simp only [decide_eq_true_eq]
          intro he
          exact hkey (by simp [he])
        rw [List.find?_cons_of_neg (p := fun c => decide (key c = key a)) _ hne]
        exact ih h2

theorem dedupAux_mem_of_find? {α κ : Type} [DecidableEq κ] {key : α → κ} {seen : List κ}
    {l : List α} {a : α} (hseen : key a ∉ seen)
    (h : l.find? (fun b => decide (key b = key a)) = some a) : a ∈ dedupAux key seen l := by
  induction l generalizing seen with
  | nil => simp at h
  | cons b bs ih =>
    by_cases hb : key b = key a
    · have hba : b = a := by
        rw [List.find?_cons_of_pos (p := fun c => decide (key c = key a)) _ (by simp [hb])] at h
        exact Option.some.inj h
      subst hba
      simp only [dedupAux]
      rw [if_neg (hb ▸ hseen)]
      exact List.mem_cons_self _ _
    · have hfind : bs.find? (fun c => decide (key c = key a)) = some a := by
        rwa [List.find?_cons_of_neg (p := fun c => decide (key c = key a)) _ (by simp [hb])] at h
      simp only [dedupAux]
      split
      · exact ih hseen hfind
      · refine List.mem_cons_of_mem _ (ih ?_ hfind)
        intro hmem
        rcases List.mem_cons.mp hmem with he | hin
        · exact hb he.symm
        · exact hseen hin

theorem drop_duplicates_first_wins {α κ : Type} [DecidableEq κ] {key : α → κ}
    {l : List α} {a : α} (h : a ∈ drop_duplicates key l) :
    l.find? (fun b => decide (key b = key a)) = some a :=
  dedupAux_find? h

theorem drop_duplicates_keys_nodup {α κ : Type} [DecidableEq κ] (key : α → κ)
    (l : List α) : ((drop_duplicates key l).map key).Nodup :=
  dedupAux_keys_nodup key [] l

theorem drop_duplicates_covers {α κ : Type} [DecidableEq κ] (key : α → κ)
    {l : List α} {k : κ} (h : ∃ a ∈ l, key a = k) :
    ∃ r ∈ drop_duplicates key l, key r = k := by
  rcases h with ⟨a, ha, hk⟩
  have hsome : (l.find? (fun b => decide (key b = k))).isSome := by
    rw [List.find?_isSome]
    exact ⟨a, ha, by simp [hk]⟩
  rcases Option.isSome_iff_exists.mp hsome with ⟨r, hr⟩
  have hkr : key r = k := by
    have := List.find?_some hr
    simpa using this
  refine ⟨r, ?_, hkr⟩
  refine dedupAux_mem_of_find? (by simp) ?_
  rw [hkr]
  exact hr

/-! ### String primitives

Models of the Python string operations the scrapers use, written over the
character list of the string so that every theorem and witness can be
evaluated by the kernel. -/

/-- Does the first list lead the second (list version of str.startswith)? -/
def leadsWith : List Char → List Char → Bool
  | [], _ => true
  | _ :: _, [] => false
  | c :: cs, d :: ds => c == d && leadsWith cs ds

/-- Does sub occur somewhere in s (Python sub in s)? -/
def occursIn (sub : List Char) : List Char → Bool
  | [] => sub.isEmpty
  | c :: rest => leadsWith sub (c :: rest) || occursIn sub rest

/-- Model of str.startswith. -/
def strStarts (s pre : String) : Bool := leadsWith pre.data s.data

/-- Model of str.endswith. -/
def strEnds (s suf : String) : Bool := leadsWith suf.data.reverse s.data.reverse

/-- Model of str.strip: whitespace removed from both ends. -/
def trimStr (s : String) : String :=
  ⟨((s.data.dropWhile Char.isWhitespace).reverse.dropWhile Char.isWhitespace).reverse⟩

/-- Model of str.lower, character by character. -/
def toLowerStr (s : String) : String := ⟨s.data.map Char.toLower⟩

/-- Model of str.upper, character by character. -/
def toUpperStr (s : String) : String := ⟨s.data.map Char.toUpper⟩

/-- Model of the Python substring test (sub in s). -/
def containsSub (s sub : String) : Bool := occursIn sub.data s.data

/-- Model of s[:-n] for n positive (str drop from the right). -/
def dropRightStr (s : String) (n : Nat) : String := ⟨s.data.take (s.data.length - n)⟩

/-! ### Earnings data model (earnings_scraper.py) -/

/-- A row of the earnings calendar table, as built by the adapters in
EarningsScraper: ticker, company, date, time and source columns.  The date
is a calendar date modelled as an integer day number. -/
structure EarningsRecord where
  ticker : String
  company : String
  date : Int
  time : String
  source : String
deriving DecidableEq, Repr

/-- The pandas drop_duplicates subset used by get_earnings_calendar:
the (ticker, date) column pair. -/
def earningsKey (r : EarningsRecord) : String × Int := (r.ticker, r.date)

/-- Comparison used by sort_values on the date column (ascending). -/
def earningsDateLe (a b : EarningsRecord) : Prop := a.date ≤ b.date

instance : DecidableRel earningsDateLe := fun a b => Int.decLe a.date b.date

instance : IsTotal EarningsRecord earningsDateLe := ⟨fun a b => Int.le_total a.date b.date⟩

instance : IsTrans EarningsRecord earningsDateLe := ⟨fun _ _ _ h1 h2 => le_trans h1 h2⟩

/-- The records contributed by one adapter call inside the aggregator loop:
the try/except around source_func turns a raised exception into no
contribution, and a successful call contributes its returned list. -/
def scrapedBatch {α : Type} (o : Except String (List α)) : List α :=
  match o with
  | Except.ok l => l
  | Except.error _ => []

/-- The all_earnings list of get_earnings_calendar: the concatenation, in
registration order, of every adapter contribution. -/
def allEarnings (outcomes : List (Except String (List EarningsRecord))) :
    List EarningsRecord :=
  (outcomes.map scrapedBatch).flatten

/-- Model of EarningsScraper.get_earnings_calendar, parameterised by the
outcome (records or exception) of each registered adapter in registration
order: concatenate the contributions, return an empty table when nothing was
scraped, otherwise drop duplicate (ticker, date) rows keeping the first and
sort ascending by date. -/
def get_earnings_calendar (outcomes : List (Except String (List EarningsRecord))) :
    List EarningsRecord :=
  let all_earnings := allEarnings outcomes
  if all_earnings.isEmpty then []
  else List.insertionSort earningsDateLe (drop_duplicates earningsKey all_earnings)

theorem get_earnings_calendar_eq (outcomes : List (Except String (List EarningsRecord))) :
    get_earnings_calendar outcomes =
      List.insertionSort earningsDateLe (drop_duplicates earningsKey (allEarnings outcomes)) := by
  unfold get_earnings_calendar
  by_cases h : (allEarnings outcomes).isEmpty
  · rw [if_pos h]
    rw [List.isEmpty_iff] at h
    rw [h]
    rfl
  · rw [if_neg h]

/-! ### News data model (news_scraper.py) -/

/-- A row of the news table, as built by the adapters in NewsScraper:
ticker, title, url, date, summary, full_text and source columns.  The date
is a timestamp modelled as an integer number of seconds. -/
structure NewsArticle where
  ticker : String
  title : String
  url : String
  date : Int
  summary : String
  full_text : String
  source : String
deriving DecidableEq, Repr

/-- Comparison used by sort_values on the date column with ascending set to
False (newest first). -/
def newsDateGe (a b : NewsArticle) : Prop := b.date ≤ a.date

instance : DecidableRel newsDateGe := fun a b => Int.decLe b.date a.date

instance : IsTotal NewsArticle newsDateGe := ⟨fun a b => Int.le_total b.date a.date⟩

instance : IsTrans NewsArticle newsDateGe := ⟨fun _ _ _ h1 h2 => le_trans h2 h1⟩

/-- Model of NewsScraper._get_ticker_news, parameterised by the outcome of
each of the three registered news sources for one ticker: a source that
raises contributes nothing (its exception is caught and logged), the rest
are concatenated in registration order. -/
def _get_ticker_news (sourceOutcomes : List (Except String (List NewsArticle))) :
    List NewsArticle :=
  (sourceOutcomes.map scrapedBatch).flatten

/-- One per-ticker step of the get_news_for_tickers loop: the whole
_get_ticker_news call sits in a try/except, so a raised exception makes the
ticker contribute nothing. -/
def tickerContribution
    (t : Except String (List (Except String (List NewsArticle)))) : List NewsArticle :=
  match t with
  | Except.error _ => []
  | Except.ok srcs => _get_ticker_news srcs

/-- The all_articles list of get_news_for_tickers: concatenation of the
per-ticker contributions in ticker order. -/
def allNews (perTicker : List (Except String (List (Except String (List NewsArticle))))) :
    List NewsArticle :=
  (perTicker.map tickerContribution).flatten

/-- Model of NewsScraper.get_news_for_tickers, parameterised by the
per-ticker outcomes: concatenate contributions, return an empty table when
nothing was scraped, otherwise drop duplicate urls keeping the first and
sort descending by date (newest first). -/
def get_news_for_tickers
    (perTicker : List (Except String (List (Except String (List NewsArticle))))) :
    List NewsArticle :=
  let all_articles := allNews perTicker
  if all_articles.isEmpty then []
  else List.insertionSort newsDateGe (drop_duplicates (fun a => a.url) all_articles)

theorem get_news_for_tickers_eq
    (perTicker : List (Except String (List (Except String (List NewsArticle))))) :
    get_news_for_tickers perTicker =
      List.insertionSort newsDateGe (drop_duplicates (fun a => a.url) (allNews perTicker)) := by
  unfold get_news_for_tickers
  by_cases h : (allNews perTicker).isEmpty
  · rw [if_pos h]
    rw [List.isEmpty_iff] at h
    rw [h]
    rfl
  · rw [if_neg h]

/-! ### Date parsing (news_scraper._parse_news_date, earnings_scraper._parse_date)

Timestamps are integers in seconds for the news parser and integers in days
for the earnings parser, matching the units each function manipulates.  The
C strptime routine is a parameter: strptime s fmt is some t when parsing s
against format fmt succeeds and none when it raises ValueError. -/

/-- First maximal run of digit characters in a character list, as found by
the regex search for one-or-more digits. -/
def firstDigitRun : List Char → Option (List Char)
  | [] => none
  | c :: rest =>
    if c.isDigit then some (c :: rest.takeWhile Char.isDigit)
    else firstDigitRun rest

/-- Model of re.search for one-or-more digits followed by int(): the first
digit run of the string read as a number, or none when the string has no
digit (in the Python code that raises AttributeError, caught by the
enclosing except). -/
def firstNat (s : String) : Option Nat :=
  (firstDigitRun s.data).map (fun ds => ds.foldl (fun n c => n * 10 + (c.toNat - 48)) 0)

/-- The ordered list of absolute formats tried by _parse_news_date. -/
def newsDateFormats : List String :=
  ["%Y-%m-%d %H:%M:%S", "%Y-%m-%d", "%m/%d/%Y %H:%M:%S", "%m/%d/%Y",
   "%b %d, %Y %H:%M:%S", "%B %d, %Y %H:%M:%S", "%b %d, %Y", "%B %d, %Y",
   "%a, %d %b %Y %H:%M:%S %Z", "%a, %d %b %Y %H:%M:%S %z"]

/-- Model of NewsScraper._parse_news_date.  now is the value of
datetime.now() in seconds.  Empty input returns now; otherwise the trimmed
string is tried against every absolute format in order; on failure the
relative branches look for the substrings hour, day, minute (in that
order) and subtract the first number found from now; when the matching
branch finds no number, or no branch matches, the function returns now. -/
def _parse_news_date (strptime : String → String → Option Int) (now : Int)
    (date_str : String) : Option Int :=
  if date_str.data.isEmpty then some now
  else
    match newsDateFormats.findSome? (fun fmt => strptime (trimStr date_str) fmt) with
    | some d => some d
    | none =>
      if containsSub (toLowerStr (trimStr date_str)) "hour" then
        match firstNat (trimStr date_str) with
        | some h => some (now - (h : Int) * 3600)
        | none => some now
      else if containsSub (toLowerStr (trimStr date_str)) "day" then
        match firstNat (trimStr date_str) with
        | some d => some (now - (d : Int) * 86400)
        | none => some now
      else if containsSub (toLowerStr (trimStr date_str)) "minute" then
        match firstNat (trimStr date_str) with
        | some m => some (now - (m : Int) * 60)
        | none => some now
      else some now

/-- The ordered list of absolute formats tried by
EarningsScraper._parse_date. -/
def earningsDateFormats : List String :=
  ["%Y-%m-%d", "%m/%d/%Y", "%m/%d/%y", "%b %d, %Y", "%B %d, %Y", "%d %b %Y", "%d %B %Y"]

/-- Model of EarningsScraper._parse_date.  today is the value of
datetime.now().date() in days.  The trimmed string is tried against every
absolute format in order; on failure the relative branches look for the
substrings today, tomorrow, yesterday; when nothing matches the function
returns none (the Python code falls through to return None). -/
def _parse_date (strptime : String → String → Option Int) (today : Int)
    (date_str : String) : Option Int :=
  match earningsDateFormats.findSome? (fun fmt => strptime (trimStr date_str) fmt) with
  | some d => some d
  | none =>
    if containsSub (toLowerStr (trimStr date_str)) "today" then some today
    else if containsSub (toLowerStr (trimStr date_str)) "tomorrow" then some (today + 1)
    else if containsSub (toLowerStr (trimStr date_str)) "yesterday" then some (today - 1)
    else none

/-- Total wrapper used where the adapters store the parsed date in the
article record: _parse_news_date never returns none (proved below), so the
default is never used. -/
def parseNewsDateD (strptime : String → String → Option Int) (now : Int)
    (date_str : String) : Int :=
  match _parse_news_date strptime now date_str with
  | some d => d
  | none => now

/-! ### Article content extraction (news_scraper._parse_article) -/

/-- The fields read off a downloaded and parsed article. -/
structure ArticleData where
  text : String
  summary : String
  authors : List String
  publish_date : Option Int
deriving DecidableEq, Repr

/-- Model of NewsScraper._parse_article, parameterised by the newspaper
library pipeline (download, parse, nlp): on success the extracted fields
are returned; on any raised failure the function returns empty text and
summary, an empty author list and no publish date. -/
def _parse_article (fetchParse : String → Except String ArticleData)
    (url : String) : ArticleData :=
  match fetchParse url with
  | Except.ok a => a
  | Except.error _ => ⟨"", "", [], none⟩

/-! ### News source adapters -/

/-- One news item of the Yahoo Finance quote page, as the adapter sees it:
the href of the first anchor (none when the anchor is absent or has no
href), the title text (empty when no h3 or h2 is found) and the timestamp
span text (empty when absent). -/
structure YahooItem where
  link : Option String
  title : String
  dateText : String
deriving DecidableEq, Repr

/-- Relative yahoo links are made absolute. -/
def resolveYahooUrl (u : String) : String :=
  if strStarts u "/" then "https://finance.yahoo.com" ++ u else u

/-- Per-item step of _get_yahoo_news: items without a link are skipped;
when both the title and the resolved url are nonempty the article content
is extracted and the article appended. -/
def yahooItemArticle (fetchParse : String → Except String ArticleData)
    (strptime : String → String → Option Int) (now : Int)
    (ticker : String) (item : YahooItem) : Option NewsArticle :=
  match item.link with
  | none => none
  | some href =>
    if item.title ≠ "" ∧ resolveYahooUrl href ≠ "" then
      some ⟨ticker, item.title, resolveYahooUrl href,
            parseNewsDateD strptime now item.dateText,
            (_parse_article fetchParse (resolveYahooUrl href)).summary,
            (_parse_article fetchParse (resolveYahooUrl href)).text, "Yahoo Finance"⟩
    else none

/-- Model of NewsScraper._get_yahoo_news: the first five news items are
processed, each producing at most one article. -/
def _get_yahoo_news (fetchParse : String → Except String ArticleData)
    (strptime : String → String → Option Int) (now : Int)
    (ticker : String) (items : List YahooItem) : List NewsArticle :=
  (items.take 5).filterMap (yahooItemArticle fetchParse strptime now ticker)

/-- The anchor of a MarketWatch article block: its href attribute (none
when absent) and its text, which becomes the title. -/
structure MWLink where
  href : Option String
  text : String
deriving DecidableEq, Repr

/-- One MarketWatch article block: its anchor (none when absent) and the
timestamp span text. -/
structure MWItem where
  link : Option MWLink
  dateText : String
deriving DecidableEq, Repr

/-- Links that are not absolute are prefixed with the MarketWatch origin. -/
def resolveMWUrl (h : String) : String :=
  if strStarts h "http" then h else "https://www.marketwatch.com" ++ h

/-- Per-item step of _get_marketwatch_news: items without an anchor or
without an href are skipped; when both title and url are nonempty the
article content is extracted and the article appended. -/
def mwItemArticle (fetchParse : String → Except String ArticleData)
    (strptime : String → String → Option Int) (now : Int)
    (ticker : String) (item : MWItem) : Option NewsArticle :=
  match item.link with
  | none => none
  | some anchor =>
    match anchor.href with
    | none => none
    | some h =>
      if anchor.text ≠ "" ∧ resolveMWUrl h ≠ "" then
        some ⟨ticker, anchor.text, resolveMWUrl h,
              parseNewsDateD strptime now item.dateText,
              (_parse_article fetchParse (resolveMWUrl h)).summary,
              (_parse_article fetchParse (resolveMWUrl h)).text, "MarketWatch"⟩
      else none

/-- Model of NewsScraper._get_marketwatch_news: the first five article
blocks are processed, each producing at most one article. -/
def _get_marketwatch_news (fetchParse : String → Except String ArticleData)
    (strptime : String → String → Option Int) (now : Int)
    (ticker : String) (items : List MWItem) : List NewsArticle :=
  (items.take 5).filterMap (mwItemArticle fetchParse strptime now ticker)

/-- One item of the Google News RSS feed: title, link and pubDate text. -/
structure RssItem where
  title : String
  link : String
  pubDate : String
deriving DecidableEq, Repr

/-- Per-item step of _get_google_news: the pubDate is normalized, the item
is skipped when its age in whole days (floor division, as for Python
timedelta.days) exceeds days_back, otherwise the article content is
extracted and the article appended. -/
def googleItemArticle (fetchParse : String → Except String ArticleData)
    (strptime : String → String → Option Int) (now : Int) (days_back : Int)
    (ticker : String) (item : RssItem) : Option NewsArticle :=
  if days_back < Int.fdiv (now - parseNewsDateD strptime now item.pubDate) 86400 then none
  else
    some ⟨ticker, item.title, item.link, parseNewsDateD strptime now item.pubDate,
          (_parse_article fetchParse item.link).summary,
          (_parse_article fetchParse item.link).text, "Google News"⟩

/-- Model of NewsScraper._get_google_news: the first three RSS items are
processed, each producing at most one article. -/
def _get_google_news (fetchParse : String → Except String ArticleData)
    (strptime : String → String → Option Int) (now : Int) (days_back : Int)
    (ticker : String) (items : List RssItem) : List NewsArticle :=
  (items.take 3).filterMap (googleItemArticle fetchParse strptime now days_back ticker)

/-- The raw page content scraped for one ticker: the per-source item lists
fed to the three news adapters. -/
structure TickerScrape where
  yahooItems : List YahooItem
  mwItems : List MWItem
  googleItems : List RssItem
deriving Repr

/-- Number of article-content-extraction calls issued for a ticker list
before deduplication: the three adapters call _parse_article exactly once
per article they append, so the call count is the summed output length. -/
def newsExtractionCalls (fetchParse : String → Except String ArticleData)
    (strptime : String → String → Option Int) (now : Int) (days_back : Int)
    (tickers : List (String × TickerScrape)) : Nat :=
  (tickers.map (fun t =>
    (_get_yahoo_news fetchParse strptime now t.1 t.2.yahooItems).length +
    (_get_marketwatch_news fetchParse strptime now t.1 t.2.mwItems).length +
    (_get_google_news fetchParse strptime now days_back t.1 t.2.googleItems).length)).sum

/-! ### Finviz earnings adapter (earnings_scraper._scrape_finviz_earnings) -/

/-- A row of the Finviz calendar table, as the adapter sees it: either a
single-cell date header carrying the date it resolves to (the Finviz date
parser always yields a date, falling back to today), or an earnings row
carrying the time cell text, the ticker anchor text and the company cell
text. -/
inductive FinvizRow where
  | dateHeader (d : Int)
  | earningsRow (timeText tickerText companyText : String)
deriving DecidableEq, Repr

/-- The table scan of _scrape_finviz_earnings: a date header updates the
current date; an earnings row under a current date is kept when its ticker
text is nonempty and the distance from today to the resolved date in days
is at most days_ahead; rows before the first date header are skipped. -/
def finvizRowsScan (today days_ahead : Int) :
    Option Int → List FinvizRow → List EarningsRecord
  | _, [] => []
  | _, FinvizRow.dateHeader d :: rest =>
    finvizRowsScan today days_ahead (some d) rest
  | none, FinvizRow.earningsRow _ _ _ :: rest =>
    finvizRowsScan today days_ahead none rest
  | some d, FinvizRow.earningsRow timeText tickerText companyText :: rest =>
    if tickerText ≠ "" ∧ d - today ≤ days_ahead then
      ⟨tickerText, companyText, d, timeText, "Finviz"⟩ ::
        finvizRowsScan today days_ahead (some d) rest
    else
      finvizRowsScan today days_ahead (some d) rest

/-- Model of EarningsScraper._scrape_finviz_earnings over the parsed rows
of the calendar table. -/
def _scrape_finviz_earnings (today days_ahead : Int) (rows : List FinvizRow) :
    List EarningsRecord :=
  finvizRowsScan today days_ahead none rows

/-- The ticker anchor texts of the earnings rows of a Finviz table, in
order. -/
def finvizTickerTexts : List FinvizRow → List String
  | [] => []
  | FinvizRow.dateHeader _ :: rest => finvizTickerTexts rest
  | FinvizRow.earningsRow _ t _ :: rest => t :: finvizTickerTexts rest

/-! ### Ticker cleaning helper (utils.clean_ticker) -/

/-- Removes one trailing occurrence of the given ending from a string. -/
def dropEnding (s suf : String) : String :=
  if strEnds s suf then dropRightStr s suf.data.length else s

/-- Model of utils.clean_ticker: uppercase and trim, strip the exchange
endings, then remove dots.  Defined here because the specification's
uppercase-ticker invariant refers to it; the aggregation pipeline never
calls it. -/
def clean_ticker (ticker : String) : String :=
  if ticker.data.isEmpty then ""
  else
    let t0 := trimStr (toUpperStr ticker)
    let t1 := dropEnding t0 "-USD"
    let t2 := dropEnding t1 "-US"
    let t3 := dropEnding t2 ".US"
    let t4 := dropEnding t3 ".TO"
    let t5 := dropEnding t4 ".L"
    (⟨t5.data.filter (fun c => c != '.')⟩ : String)

/-! ### Theorems -/

/-- C1: get_earnings_calendar deduplicates the concatenated adapter output
by the (ticker, date) pair keeping the first occurrence in
adapter-registration order — the output keys are pairwise distinct, every
output record is the first record with its key in the concatenation, and
every scraped key is represented — and the final table is sorted ascending
by date. -/
theorem earnings_collect_dedup_sorted
    (outcomes : List (Except String (List EarningsRecord))) :
    List.Sorted earningsDateLe (get_earnings_calendar outcomes) ∧
    ((get_earnings_calendar outcomes).map earningsKey).Nodup ∧
    (∀ r ∈ get_earnings_calendar outcomes,
      (allEarnings outcomes).find? (fun b => decide (earningsKey b = earningsKey r)) = some r) ∧
    (∀ k : String × Int, (∃ a ∈ allEarnings outcomes, earningsKey a = k) →
      ∃ r ∈ get_earnings_calendar outcomes, earningsKey r = k) := by
  rw [get_earnings_calendar_eq]
  refine ⟨List.sorted_insertionSort _ _, ?_, ?_, ?_⟩
  · have hperm :=
      List.perm_insertionSort earningsDateLe
        (drop_duplicates earningsKey (allEarnings outcomes))
    exact ((hperm.map earningsKey).nodup_iff).mpr (drop_duplicates_keys_nodup _ _)
  · intro r hr
    rw [List.mem_insertionSort] at hr
    exact drop_duplicates_first_wins hr
  · intro k hk
    rcases drop_duplicates_covers earningsKey hk with ⟨r, hr, hkr⟩
    exact ⟨r, (List.mem_insertionSort _).mpr hr, hkr⟩

def demoRecA : EarningsRecord := ⟨"AAPL", "Apple", 5, "Pre-market", "Finviz"⟩

def demoRecB : EarningsRecord := ⟨"AAPL", "Apple Inc", 5, "After-hours", "Yahoo Finance"⟩

def demoEarningsOutcomes : List (Except String (List EarningsRecord)) :=
  [Except.ok [demoRecA], Except.ok [demoRecB]]

/-- Witness for C1: two adapters produce records with the same (ticker,
date); the first-registered adapter's record is the one the merged table
keeps. -/
theorem earnings_collect_dedup_sorted_witness :
    (allEarnings demoEarningsOutcomes).find?
      (fun b => decide (earningsKey b = earningsKey demoRecA)) = some demoRecA ∧
    ∃ r ∈ get_earnings_calendar demoEarningsOutcomes, earningsKey r = ("AAPL", 5) := by
  have h := earnings_collect_dedup_sorted demoEarningsOutcomes
  exact ⟨h.2.2.1 demoRecA (by decide), h.2.2.2 ("AAPL", 5) ⟨demoRecA, by decide, by decide⟩⟩

/-- C3: get_news_for_tickers deduplicates the concatenated adapter output
globally by url keeping the first occurrence (first-seen metadata wins) and
sorts the resulting table descending by date. -/
theorem news_collect_dedup_sorted
    (perTicker : List (Except String (List (Except String (List NewsArticle))))) :
    List.Sorted newsDateGe (get_news_for_tickers perTicker) ∧
    ((get_news_for_tickers perTicker).map (fun a => a.url)).Nodup ∧
    (∀ a ∈ get_news_for_tickers perTicker,
      (allNews perTicker).find? (fun b => decide (b.url = a.url)) = some a) ∧
    (∀ u : String, (∃ a ∈ allNews perTicker, a.url = u) →
      ∃ r ∈ get_news_for_tickers perTicker, r.url = u) := by
  rw [get_news_for_tickers_eq]
  refine ⟨List.sorted_insertionSort _ _, ?_, ?_, ?_⟩
  · have hperm :=
      List.perm_insertionSort newsDateGe
        (drop_duplicates (fun a => a.url) (allNews perTicker))
    exact ((hperm.map (fun a => a.url)).nodup_iff).mpr (drop_duplicates_keys_nodup _ _)
  · intro a ha
    rw [List.mem_insertionSort] at ha
    exact drop_duplicates_first_wins ha
  · intro u hu
    rcases drop_duplicates_covers (fun a => a.url) hu with ⟨r, hr, hkr⟩
    exact ⟨r, (List.mem_insertionSort _).mpr hr, hkr⟩

def demoArtA : NewsArticle :=
  ⟨"AAPL", "Quarterly results", "https://example.com/a", 50, "first summary", "first text",
   "Yahoo Finance"⟩

def demoArtB : NewsArticle :=
  ⟨"AAPL", "Other headline", "https://example.com/a", 80, "second summary", "second text",
   "MarketWatch"⟩

def demoNewsPerTicker :
    List (Except String (List (Except String (List NewsArticle)))) :=
  [Except.ok [Except.ok [demoArtA], Except.ok [demoArtB]]]

/-- Witness for C3: two adapters return the same url; the first-seen
article's metadata wins and one article with that url is in the table. -/
theorem news_collect_dedup_sorted_witness :
    (allNews demoNewsPerTicker).find? (fun b => decide (b.url = demoArtA.url)) = some demoArtA ∧
    ∃ r ∈ get_news_for_tickers demoNewsPerTicker, r.url = "https://example.com/a" := by
  have h := news_collect_dedup_sorted demoNewsPerTicker
  exact ⟨h.2.2.1 demoArtA (by decide),
    h.2.2.2 "https://example.com/a" ⟨demoArtA, by decide, by decide⟩⟩

/-- C2: when every registered adapter either returns an empty sequence or
raises (its exception being caught by the aggregator loop), both collect
functions return the empty table rather than propagating an error. -/
theorem aggregators_empty_on_empty_or_error
    (eo : List (Except String (List EarningsRecord)))
    (pt : List (Except String (List (Except String (List NewsArticle)))))
    (he : ∀ o ∈ eo, o = Except.ok [] ∨ ∃ m, o = Except.error m)
    (hn : ∀ t ∈ pt,
      (∃ srcs, t = Except.ok srcs ∧
        ∀ s ∈ srcs, s = Except.ok [] ∨ ∃ m, s = Except.error m) ∨
      ∃ m, t = Except.error m) :
    get_earnings_calendar eo = [] ∧ get_news_for_tickers pt = [] := by
  constructor
  · have hall : allEarnings eo = [] := by
      unfold allEarnings
      rw [List.flatten_eq_nil_iff]
      intro l hl
      rcases List.mem_map.mp hl with ⟨o, ho, rfl⟩
      rcases he o ho with rfl | ⟨m, rfl⟩
      · rfl
      · rfl
    rw [get_earnings_calendar_eq, hall]
    rfl
  · have hall : allNews pt = [] := by
      unfold allNews
      rw [List.flatten_eq_nil_iff]
      intro l hl
      rcases List.mem_map.mp hl with ⟨t, ht, rfl⟩
      rcases hn t ht with ⟨srcs, rfl, hsrcs⟩ | ⟨m, rfl⟩
      · show _get_ticker_news srcs = []
        unfold _get_ticker_news
        rw [List.flatten_eq_nil_iff]
        intro l2 hl2
        rcases List.mem_map.mp hl2 with ⟨s, hs, rfl⟩
        rcases hsrcs s hs with rfl | ⟨m, rfl⟩
        · rfl
        · rfl
      · rfl
    rw [get_news_for_tickers_eq, hall]
    rfl

/-- Witness for C2: one adapter returns empty, another raises; one ticker's
sources raise or return empty, another ticker raises outright — both
aggregators yield the empty table. -/
theorem aggregators_empty_on_empty_or_error_witness :
    get_earnings_calendar [Except.ok [], Except.error "network down"] = [] ∧
    get_news_for_tickers
      [Except.ok [Except.error "rate limited", Except.ok []], Except.error "boom"] = [] := by
  refine aggregators_empty_on_empty_or_error _ _ ?_ ?_
  · intro o ho
    rcases List.mem_cons.mp ho with rfl | h2
    · exact Or.inl rfl
    · rcases List.mem_cons.mp h2 with rfl | h3
      · exact Or.inr ⟨"network down", rfl⟩
      · simp at h3
  · intro t ht
    rcases List.mem_cons.mp ht with rfl | h2
    · refine Or.inl ⟨_, rfl, ?_⟩
      intro s hs
      rcases List.mem_cons.mp hs with rfl | h3
      · exact Or.inr ⟨"rate limited", rfl⟩
      · rcases List.mem_cons.mp h3 with rfl | h4
        · exact Or.inl rfl
        · simp at h4
    · rcases List.mem_cons.mp h2 with rfl | h3
      · exact Or.inr ⟨"boom", rfl⟩
      · simp at h3

/-- C10: _parse_news_date returns a timestamp for every input — despite the
Optional annotation it never returns none — and the empty string yields the
current time, so every article carries a non-null date. -/
theorem parse_news_date_never_none
    (strptime : String → String → Option Int) (now : Int) (s : String) :
    (∃ d, _parse_news_date strptime now s = some d) ∧
    _parse_news_date strptime now "" = some now := by
  constructor
  · unfold _parse_news_date
    split
    · exact ⟨now, rfl⟩
    · split
      · exact ⟨_, rfl⟩
      · split
        · split
          · exact ⟨_, rfl⟩
          · exact ⟨now, rfl⟩
        · split
          · split
            · exact ⟨_, rfl⟩
            · exact ⟨now, rfl⟩
          · split
            · split
              · exact ⟨_, rfl⟩
              · exact ⟨now, rfl⟩
            · exact ⟨now, rfl⟩
  · rfl

/-- A strptime that fails on every input, modelling text that matches no
absolute date format. -/
def noStrptime : String → String → Option Int := fun _ _ => none

/-- A newspaper pipeline that raises on every url, modelling an unreachable
article. -/
def failFetch : String → Except String ArticleData := fun _ => Except.error "unreachable"

/-- C4 counterexample: the Finviz adapter includes a record whose resolved
date (day 95) lies strictly before today (day 100) with days_ahead 30: the
code only checks the upper bound of the window. -/
theorem finviz_includes_past_date_cex :
    _scrape_finviz_earnings 100 30
      [FinvizRow.dateHeader 95, FinvizRow.earningsRow "AMC" "AAPL" "Apple Inc"] =
      [⟨"AAPL", "Apple Inc", 95, "AMC", "Finviz"⟩] ∧
    (95 : Int) < 100 := by
  exact ⟨rfl, by decide⟩

/-- C4 amended: a scraped Finviz record with a resolved date is included
only if that date is at most today plus days_ahead; no lower bound is
enforced, so dates before today pass the filter. -/
theorem finviz_filter_upper_bound_only (today days_ahead : Int) (cur : Option Int)
    (rows : List FinvizRow) (r : EarningsRecord)
    (hr : r ∈ finvizRowsScan today days_ahead cur rows) :
    r.date ≤ today + days_ahead := by
  induction rows generalizing cur with
  | nil => simp [finvizRowsScan] at hr
  | cons row rest ih =>
    cases row with
    | dateHeader d =>
      simp only [finvizRowsScan] at hr
      exact ih _ hr
    | earningsRow t tk c =>
      cases cur with
      | none =>
        simp only [finvizRowsScan] at hr
        exact ih none hr
      | some d =>
        simp only [finvizRowsScan] at hr
        split at hr
        · rename_i hcond
          rcases List.mem_cons.mp hr with rfl | h2
          · have := hcond.2
            simp only [EarningsRecord.date]
            omega
          · exact ih _ h2
        · exact ih _ hr

/-- Witness for C4 amended at a concrete scan containing a past-dated row. -/
theorem finviz_filter_upper_bound_only_witness :
    (⟨"AAPL", "Apple Inc", 95, "AMC", "Finviz"⟩ : EarningsRecord).date ≤ 100 + 30 :=
  finviz_filter_upper_bound_only 100 30 none
    [FinvizRow.dateHeader 95, FinvizRow.earningsRow "AMC" "AAPL" "Apple Inc"]
    ⟨"AAPL", "Apple Inc", 95, "AMC", "Finviz"⟩ (by decide)

/-- C5 counterexample: on input matching no format and no relative phrase,
the earnings-side _parse_date returns None, not the fallback timestamp
(here the natural candidate 100): the news parser does return its fallback,
the earnings parser does not. -/
theorem parse_date_returns_none_cex :
    _parse_date noStrptime 100 "qwzx" = none ∧
    _parse_news_date noStrptime 100 "qwzx" = some 100 := by
  exact ⟨rfl, rfl⟩

/-- C5 amended: on text matching none of the absolute formats and
containing none of the recognized relative phrases, _parse_news_date
returns exactly its fallback (the current time) and _parse_date returns
none; neither raises. -/
theorem date_parser_fallbacks
    (strptime : String → String → Option Int) (now today : Int) (s : String)
    (hn : ∀ fmt ∈ newsDateFormats, strptime (trimStr s) fmt = none)
    (hhour : containsSub (toLowerStr (trimStr s)) "hour" = false)
    (hday : containsSub (toLowerStr (trimStr s)) "day" = false)
    (hmin : containsSub (toLowerStr (trimStr s)) "minute" = false)
    (he : ∀ fmt ∈ earningsDateFormats, strptime (trimStr s) fmt = none)
    (htd : containsSub (toLowerStr (trimStr s)) "today" = false)
    (htm : containsSub (toLowerStr (trimStr s)) "tomorrow" = false)
    (hyd : containsSub (toLowerStr (trimStr s)) "yesterday" = false) :
    _parse_news_date strptime now s = some now ∧ _parse_date strptime today s = none := by
  have hfn : newsDateFormats.findSome? (fun fmt => strptime (trimStr s) fmt) = none :=
    List.findSome?_eq_none_iff.mpr hn
  have hfe : earningsDateFormats.findSome? (fun fmt => strptime (trimStr s) fmt) = none :=
    List.findSome?_eq_none_iff.mpr he
  constructor
  · unfold _parse_news_date
    split
    · rfl
    · rw [hfn, hhour, hday, hmin]
      rfl
  · unfold _parse_date
    rw [hfe, htd, htm, hyd]
    rfl

/-- Witness for C5 amended at concrete unparseable input. -/
theorem date_parser_fallbacks_witness :
    _parse_news_date noStrptime 5 "garbled" = some 5 ∧
    _parse_date noStrptime 7 "garbled" = none :=
  date_parser_fallbacks noStrptime 5 7 "garbled"
    (fun _ _ => rfl) (by decide) (by decide) (by decide)
    (fun _ _ => rfl) (by decide) (by decide) (by decide)

/-- C6: when the newspaper pipeline raises for a url, _parse_article
returns empty text and summary, and a Yahoo news item pointing at that url
still yields an article in the adapter output with its title, url and date
intact and empty summary and full_text; an article that is the first in
the concatenated batch with its url is present in the final news table. -/
theorem extraction_failure_article_retained
    (fetchParse : String → Except String ArticleData)
    (strptime : String → String → Option Int) (now : Int)
    (ticker url e : String) (items : List YahooItem) (item : YahooItem) (href : String)
    (hfail : fetchParse url = Except.error e)
    (hmem : item ∈ items.take 5)
    (hlink : item.link = some href)
    (hurl : resolveYahooUrl href = url)
    (htitle : item.title ≠ "")
    (hune : url ≠ "") :
    _parse_article fetchParse url = ⟨"", "", [], none⟩ ∧
    (⟨ticker, item.title, url, parseNewsDateD strptime now item.dateText, "", "",
      "Yahoo Finance"⟩ : NewsArticle) ∈
        _get_yahoo_news fetchParse strptime now ticker items ∧
    (∀ (perTicker : List (Except String (List (Except String (List NewsArticle)))))
       (a : NewsArticle), a ∈ allNews perTicker →
       (allNews perTicker).find? (fun b => decide (b.url = a.url)) = some a →
       a ∈ get_news_for_tickers perTicker) := by
  have hpa : _parse_article fetchParse url = ⟨"", "", [], none⟩ := by
    unfold _parse_article
    rw [hfail]
  refine ⟨hpa, ?_, ?_⟩
  · unfold _get_yahoo_news
    refine List.mem_filterMap.mpr ⟨item, hmem, ?_⟩
    unfold yahooItemArticle
    rw [hlink]
    simp only [hurl]
    rw [if_pos ⟨htitle, hune⟩, hpa]
  · intro perTicker a _ hfind
    rw [get_news_for_tickers_eq]
    exact (List.mem_insertionSort _).mpr (dedupAux_mem_of_find? (by simp) hfind)

def demoYahooItem : YahooItem := ⟨some "/news/a", "Big headline", ""⟩

def demoFailedArticle : NewsArticle :=
  ⟨"AAPL", "Big headline", "https://finance.yahoo.com/news/a", 0, "", "", "Yahoo Finance"⟩

/-- Witness for C6: an unreachable url still yields the article, with empty
content, in the adapter output and in the final news table. -/
theorem extraction_failure_article_retained_witness :
    _parse_article failFetch "https://finance.yahoo.com/news/a" = ⟨"", "", [], none⟩ ∧
    demoFailedArticle ∈ _get_yahoo_news failFetch noStrptime 0 "AAPL" [demoYahooItem] ∧
    demoFailedArticle ∈ get_news_for_tickers
      [Except.ok [Except.ok [demoFailedArticle]]] := by
  have h := extraction_failure_article_retained failFetch noStrptime 0 "AAPL"
    "https://finance.yahoo.com/news/a" "unreachable" [demoYahooItem] demoYahooItem
    "/news/a" rfl (by decide) rfl rfl (by decide) (by decide)
  exact ⟨h.1, h.2.1, h.2.2 [Except.ok [Except.ok [demoFailedArticle]]]
    demoFailedArticle (by decide) (by decide)⟩

/-- A strptime parsing the literal date text X to the fixed timestamp
777000, used to exhibit the age-filter boundary. -/
def fixedStrptime : String → String → Option Int :=
  fun s _ => if s = "X" then some 777000 else none

/-- C7 counterexample: with now 864000 and days_back 1, an article dated
777000 is older than now minus days_back (777600) by one hour, yet the
Google News adapter keeps it, because the integer day count of its age is
exactly 1. -/
theorem google_news_age_filter_cex :
    _get_google_news failFetch fixedStrptime 864000 1 "AAPL"
      [⟨"Headline", "https://news.example/a", "X"⟩] =
      [⟨"AAPL", "Headline", "https://news.example/a", 777000, "", "", "Google News"⟩] ∧
    (777000 : Int) < 864000 - 1 * 86400 := by
  exact ⟨rfl, by decide⟩

/-- C7 amended: the Google News adapter excludes an article exactly when
the floor of its age in days (as computed by timedelta.days) exceeds
days_back; every article in the output satisfies that floored-age bound,
and articles older than now minus days_back by less than a full extra day
are retained. -/
theorem google_news_age_filter_floor_days
    (fetchParse : String → Except String ArticleData)
    (strptime : String → String → Option Int) (now days_back : Int)
    (ticker : String) (items : List RssItem) (a : NewsArticle)
    (ha : a ∈ _get_google_news fetchParse strptime now days_back ticker items) :
    Int.fdiv (now - a.date) 86400 ≤ days_back := by
  unfold _get_google_news at ha
  rcases List.mem_filterMap.mp ha with ⟨item, _, hitem⟩
  unfold googleItemArticle at hitem
  split at hitem
  · exact absurd hitem (by simp)
  · rename_i hc
    have := Option.some.inj hitem
    subst this
    simpa using not_lt.mp hc

/-- Witness for C7 amended at the boundary article kept by the filter. -/
theorem google_news_age_filter_floor_days_witness :
    Int.fdiv (864000 -
      (⟨"AAPL", "Headline", "https://news.example/a", 777000, "", "",
        "Google News"⟩ : NewsArticle).date) 86400 ≤ 1 :=
  google_news_age_filter_floor_days failFetch fixedStrptime 864000 1 "AAPL"
    [⟨"Headline", "https://news.example/a", "X"⟩] _ (by decide)

/-- C8: each news adapter emits at most its per-source cap of articles per
ticker — 5 for Yahoo, 5 for MarketWatch, 3 for Google News, each cap
between 3 and 5 — and since each adapter issues exactly one
content-extraction call per emitted article, a ticker list of length N
causes at most N times 3 adapters times cap 5 extraction calls before
deduplication. -/
theorem news_adapter_caps
    (fetchParse : String → Except String ArticleData)
    (strptime : String → String → Option Int) (now days_back : Int)
    (ticker : String) (yitems : List YahooItem) (mitems : List MWItem)
    (gitems : List RssItem) (tickers : List (String × TickerScrape)) :
    (_get_yahoo_news fetchParse strptime now ticker yitems).length ≤ 5 ∧
    (_get_marketwatch_news fetchParse strptime now ticker mitems).length ≤ 5 ∧
    (_get_google_news fetchParse strptime now days_back ticker gitems).length ≤ 3 ∧
    newsExtractionCalls fetchParse strptime now days_back tickers ≤
      tickers.length * (3 * 5) := by
  have hy : ∀ t yi, (_get_yahoo_news fetchParse strptime now t yi).length ≤ 5 := by
    intro t yi
    exact le_trans (List.length_filterMap_le _ _) (List.length_take_le _ _)
  have hm : ∀ t mi, (_get_marketwatch_news fetchParse strptime now t mi).length ≤ 5 := by
    intro t mi
    exact le_trans (List.length_filterMap_le _ _) (List.length_take_le _ _)
  have hg : ∀ t gi, (_get_google_news fetchParse strptime now days_back t gi).length ≤ 3 := by
    intro t gi
    exact le_trans (List.length_filterMap_le _ _) (List.length_take_le _ _)
  refine ⟨hy ticker yitems, hm ticker mitems, hg ticker gitems, ?_⟩
  induction tickers with
  | nil => simp [newsExtractionCalls]
  | cons t ts ih =>
    simp only [newsExtractionCalls, List.map_cons, List.sum_cons, List.length_cons] at ih ⊢
    have h1 := hy t.1 t.2.yahooItems
    have h2 := hm t.1 t.2.mwItems
    have h3 := hg t.1 t.2.googleItems
    omega

/-- C9 counterexample: a scraped Finviz row whose ticker anchor text is
lowercase flows into the final earnings table unchanged, so the output
ticker is not an uppercase symbol. -/
theorem earnings_ticker_lowercase_cex :
    get_earnings_calendar [Except.ok (_scrape_finviz_earnings 100 30
      [FinvizRow.dateHeader 100, FinvizRow.earningsRow "AMC" "brk.b" "Berkshire"])] =
      [⟨"brk.b", "Berkshire", 100, "AMC", "Finviz"⟩] ∧
    (toUpperStr "brk.b" == "brk.b") = false := by
  exact ⟨by decide, by decide⟩

/-- C9 amended: every record the aggregator outputs comes verbatim from
some adapter batch, the Finviz adapter copies the scraped ticker anchor
text into the record unchanged (clean_ticker, which would uppercase it, is
never applied), and output tickers are uppercase precisely when the
scraped texts are. -/
theorem earnings_ticker_verbatim
    (outcomes : List (Except String (List EarningsRecord)))
    (today days_ahead : Int) (cur : Option Int) (rows : List FinvizRow) :
    (∀ r ∈ get_earnings_calendar outcomes, r ∈ allEarnings outcomes) ∧
    (∀ r ∈ finvizRowsScan today days_ahead cur rows,
      r.ticker ∈ finvizTickerTexts rows) ∧
    ((∀ t ∈ finvizTickerTexts rows, toUpperStr t = t) →
      ∀ r ∈ finvizRowsScan today days_ahead cur rows, toUpperStr r.ticker = r.ticker) := by
  have hverb : ∀ (cur2 : Option Int) (r : EarningsRecord),
      r ∈ finvizRowsScan today days_ahead cur2 rows →
      r.ticker ∈ finvizTickerTexts rows := by
    induction rows with
    | nil =>
      intro cur2 r hr
      simp [finvizRowsScan] at hr
    | cons row rest ih =>
      intro cur2 r hr
      cases row with
      | dateHeader d =>
        simp only [finvizRowsScan] at hr
        simp only [finvizTickerTexts]
        exact ih _ r hr
      | earningsRow t tk c =>
        cases cur2 with
        | none =>
          simp only [finvizRowsScan] at hr
          simp only [finvizTickerTexts]
          exact List.mem_cons_of_mem _ (ih _ r hr)
        | some d =>
          simp only [finvizRowsScan] at hr
          simp only [finvizTickerTexts]
          split at hr
          · rcases List.mem_cons.mp hr with rfl | h2
            · exact List.mem_cons_self _ _
            · exact List.mem_cons_of_mem _ (ih _ r h2)
          · exact List.mem_cons_of_mem _ (ih _ r hr)
  refine ⟨?_, hverb cur, ?_⟩
  · intro r hr
    rw [get_earnings_calendar_eq] at hr
    rw [List.mem_insertionSort] at hr
    exact mem_of_mem_dedupAux hr
  · intro hup r hr
    exact hup r.ticker (hverb cur r hr)

/-- Witness for C9 amended: provenance and verbatim pass-through at a
concrete batch whose scraped tickers are uppercase. -/
theorem earnings_ticker_verbatim_witness :
    (⟨"MSFT", "Microsoft", 100, "BMO", "Finviz"⟩ : EarningsRecord).ticker ∈
      finvizTickerTexts [FinvizRow.dateHeader 100,
        FinvizRow.earningsRow "BMO" "MSFT" "Microsoft"] ∧
    toUpperStr (⟨"MSFT", "Microsoft", 100, "BMO", "Finviz"⟩ : EarningsRecord).ticker =
      (⟨"MSFT", "Microsoft", 100, "BMO", "Finviz"⟩ : EarningsRecord).ticker := by
  have h := earnings_ticker_verbatim [] 100 30 none
    [FinvizRow.dateHeader 100, FinvizRow.earningsRow "BMO" "MSFT" "Microsoft"]
  exact ⟨h.2.1 _ (by decide), h.2.2 (by decide) _ (by decide)⟩

end EarningsRadar
